import Mathlib

/-!
Verification of the audio-enhancement core of `audio_enhancer.py`.

An audio buffer is modelled as a `List ℝ` of mono samples.  Pure numeric
stages (`_normalize_audio`, `_compress_dynamic_range`, the magnitude step of
`_spectral_subtraction`, `_estimate_snr`, `_remove_silence`'s framing and
retention logic) are translated directly from the source.  Calls into
external libraries (librosa load/STFT, noisereduce, scipy filters, the
WebRTC voice-activity detector, pydub save) are modelled as oracles:
arbitrary functions that may either return a value or raise (`Except.error`),
exactly at the call boundaries where the Python code invokes them.
-/

namespace AudioEnhancer

noncomputable section

/-! ## Normalizer — `_normalize_audio` (audio_enhancer.py lines 142-155) -/

/-- `np.sqrt(np.mean(audio**2))` — root-mean-square of a buffer. -/
def rms (a : List ℝ) : ℝ :=
  Real.sqrt ((a.map (fun x => x ^ 2)).sum / a.length)

/-- `10**(target_lufs/20)` — the target RMS for loudness normalization. -/
def target_rms (target_lufs : ℝ) : ℝ := (10 : ℝ) ^ (target_lufs / 20)

/-- The value of `np.max(np.abs(audio))` on a NONEMPTY buffer: the peak
absolute amplitude.  On a zero-size array `np.max` raises `ValueError`;
that error path is modelled by `np_max_abs` below, and this pure helper
(whose `foldr` defaults to 0 on `[]`) is only ever related to the source
through it or on nonempty buffers. -/
def peakAbs (a : List ℝ) : ℝ := (a.map (fun x => |x|)).foldr max 0

/-- Lines 145-148: `if rms > 0: audio = audio * (target_rms / rms)`. -/
def rmsScale (a : List ℝ) (target_lufs : ℝ) : List ℝ :=
  if 0 < rms a then a.map (fun x => x * (target_rms target_lufs / rms a)) else a

/-- Lines 151-153: `if max_val > 0.95: audio = audio * (0.95 / max_val)`. -/
def clipGuard (a : List ℝ) : List ℝ :=
  if 0.95 < peakAbs a then a.map (fun x => x * (0.95 / peakAbs a)) else a

/-- The value of `_normalize_audio` on a NONEMPTY buffer: RMS scaling
followed by the clipping guard.  `normalize_audio_checked` below carries the
empty-buffer error path and agrees with this on nonempty buffers; the
enhancement chains use this pure value (an exception escaping
`_normalize_audio` in the program is caught by the same top-level handler
the chains already model). -/
def normalize_audio (a : List ℝ) (target_lufs : ℝ) : List ℝ :=
  clipGuard (rmsScale a target_lufs)

/-- `np.max(np.abs(audio))` (line 151) as executed: raises `ValueError`
on a zero-size array, otherwise returns the peak absolute amplitude. -/
def np_max_abs (a : List ℝ) : Except Unit ℝ :=
  if a = [] then Except.error () else Except.ok (peakAbs a)

/-- `_normalize_audio` with the empty-array error path explicit: the RMS
scaling of lines 145-148, then the clipping guard of lines 151-153 driven
by `np_max_abs`, which raises on the empty buffer. -/
def normalize_audio_checked (a : List ℝ) (target_lufs : ℝ) :
    Except Unit (List ℝ) := do
  let y := rmsScale a target_lufs
  let m ← np_max_abs y
  pure (if 0.95 < m then y.map (fun x => x * (0.95 / m)) else y)

/-! ## NoiseSuppressor magnitude step — `_spectral_subtraction` lines 227-235.
The STFT itself is a librosa call (an oracle at the stage level, below);
the numeric subtraction on the magnitude matrix is translated here.  A
magnitude matrix is a list of rows, one row of per-frame magnitudes for each
frequency bin, mirroring `magnitude[bin, frame]`. -/

/-- `np.mean(l)` (0 for an empty list, where numpy would yield NaN). -/
def listMean (l : List ℝ) : ℝ := l.sum / l.length

/-- Line 228: `np.mean(magnitude[:, :noise_frames], axis=1)` for one bin row. -/
def noise_estimate (noise_frames : ℕ) (row : List ℝ) : ℝ :=
  listMean (row.take noise_frames)

/-- Lines 232-235 for one frequency-bin row: subtract
`alpha * noise_spectrum` and floor at `0.1 * magnitude`. -/
def subtract_row (alpha : ℝ) (noise_frames : ℕ) (row : List ℝ) : List ℝ :=
  row.map (fun m => max (m - alpha * noise_estimate noise_frames row) (0.1 * m))

/-- Lines 227-235: the spectral-subtraction magnitude step over the whole
magnitude matrix. -/
def spectral_subtract_mag (mag : List (List ℝ)) (alpha : ℝ) (noise_frames : ℕ) :
    List (List ℝ) :=
  mag.map (subtract_row alpha noise_frames)

/-! ## DynamicRangeCompressor — `_compress_dynamic_range` (lines 202-216) -/

/-- The `1e-10` epsilon added before taking the logarithm (line 205). -/
def eps10 : ℝ := 1 / 10000000000

/-- Line 205: `20 * np.log10(np.abs(x) + 1e-10)` for one sample. -/
def audio_db (x : ℝ) : ℝ := 20 * Real.logb 10 (|x| + eps10)

/-- Lines 208-212: `np.where(audio_db > threshold,
threshold + (audio_db - threshold) / ratio, audio_db)` for one sample. -/
def compressed_db (ratio threshold x : ℝ) : ℝ :=
  if threshold < audio_db x then threshold + (audio_db x - threshold) / ratio
  else audio_db x

/-- Line 215: `np.sign(audio) * (10 ** (compressed_db / 20))` for one sample.
`Real.sign` agrees with `np.sign` (0 at 0, ±1 elsewhere). -/
def compressSample (ratio threshold x : ℝ) : ℝ :=
  Real.sign x * (10 : ℝ) ^ (compressed_db ratio threshold x / 20)

/-- `_compress_dynamic_range`: the per-sample compressor mapped over the buffer. -/
def compress_dynamic_range (a : List ℝ) (ratio threshold : ℝ) : List ℝ :=
  a.map (compressSample ratio threshold)

/-! ## VoiceActivityGate — `_remove_silence` (lines 157-190)

The loop `for i in range(0, len(audio) - frame_length + 1, frame_length)`
visits the maximal run of full non-overlapping `frame_length`-sample frames;
the partial tail is never visited.  `full_frames` produces exactly those
frames.  The WebRTC detector call (`self.vad.is_speech`, on the 16-bit
PCM-scaled copy of the frame) is an oracle `vad` that may return a
classification or raise; the 16-bit conversion is folded into the oracle,
which is universally quantified in every theorem below. -/

/-- The full non-overlapping `fl`-sample frames of a buffer, in order
(the partial tail frame is dropped, as in the source loop bounds). -/
def full_frames (fl : ℕ) (l : List ℝ) : List (List ℝ) :=
  if _h : 0 < fl ∧ fl ≤ l.length then l.take fl :: full_frames fl (l.drop fl)
  else []
termination_by l.length
decreasing_by simp only [List.length_drop]; omega

/-- Lines 175-181: a frame is appended when the detector says speech, or
when `aggressive` is false, or when the detector raises. -/
def keepFrame (vad : List ℝ → Except Unit Bool) (aggressive : Bool)
    (f : List ℝ) : Bool :=
  match vad f with
  | Except.ok s => s || !aggressive
  | Except.error _ => true

/-- The `voiced_frames` list accumulated by the loop in lines 168-181. -/
def voiced_frames (vad : List ℝ → Except Unit Bool) (aggressive : Bool)
    (fl : ℕ) (audio : List ℝ) : List (List ℝ) :=
  (full_frames fl audio).filter (keepFrame vad aggressive)

/-- `_remove_silence`: frame length is `int(sr * 30 / 1000)`; the kept frames
are concatenated, and the original buffer is returned when none are kept
(lines 183-186). -/
def remove_silence (vad : List ℝ → Except Unit Bool) (audio : List ℝ)
    (sr : ℕ) (aggressive : Bool) : List ℝ :=
  let fl := sr * 30 / 1000
  let kept := voiced_frames vad aggressive fl audio
  if kept.isEmpty then audio else kept.flatten

/-! ## QualityMetrics — `_estimate_snr` (lines 322-341) -/

/-- `np.var(l)` — population variance (0 for an empty list, where numpy
would yield NaN; the NaN makes the source's `noise_power > 0` test false,
which the 0 also does). -/
def variance (l : List ℝ) : ℝ :=
  listMean (l.map (fun x => (x - listMean l) ^ 2))

/-- Line 329: `np.sort(np.abs(audio))`. -/
def sortedAbs (a : List ℝ) : List ℝ :=
  (a.map (fun x => |x|)).insertionSort (· ≤ ·)

/-- Line 330: the quietest 25% of samples by absolute value. -/
def noise_samples (a : List ℝ) : List ℝ := (sortedAbs a).take (a.length / 4)

/-- Line 326: signal power is the variance of the full buffer. -/
def signal_power (a : List ℝ) : ℝ := variance a

/-- Line 331: noise power is the variance of the quietest 25%. -/
def noise_power (a : List ℝ) : ℝ := variance (noise_samples a)

/-- `_estimate_snr` lines 333-338: `10*log10(signal/noise)` when
`noise_power > 0`, else 60, clamped into `[0, 60]`. -/
def estimate_snr (a : List ℝ) : ℝ :=
  let snr := if 0 < noise_power a
    then 10 * Real.logb 10 (signal_power a / noise_power a)
    else 60
  max 0 (min 60 snr)

/-! ## Orchestrator — `enhance_audio`, the three chains, and
`enhance_audio_for_transcription` (lines 37-140, 346-361).

External calls are collected in an oracle bundle.  A stage that the Python
code runs bare inside the chain (no try/except of its own) is sequenced in
the `Except` monad, so its failure aborts the chain exactly as an uncaught
exception does; a stage with an internal catch-all (`_remove_silence`,
`_spectral_subtraction`, `_enhance_voice_frequencies`) never produces an
error at the chain level. -/

structure Oracles where
  /-- `librosa.load` (line 53): decode and resample, may raise. -/
  load : List ℝ → Except Unit (List ℝ)
  /-- `nr.reduce_noise` (lines 85, 101, 123), by `prop_decrease`. -/
  nrReduce : ℝ → List ℝ → Except Unit (List ℝ)
  /-- `_high_pass_filter` (scipy design + filter, lines 192-195), by cutoff. -/
  highPass : ℝ → List ℝ → Except Unit (List ℝ)
  /-- `_band_pass_filter` (scipy design + filter, lines 197-200), by low/high. -/
  bandPass : ℝ → ℝ → List ℝ → Except Unit (List ℝ)
  /-- `self.vad.is_speech` on one PCM-scaled frame (line 176). -/
  vad : List ℝ → Except Unit Bool
  /-- The librosa STFT / subtract / inverse-STFT body of
  `_spectral_subtraction`'s try-block (lines 220-241). -/
  stftSub : List ℝ → Except Unit (List ℝ)
  /-- The body of `_enhance_voice_frequencies`' try-block (lines 249-276). -/
  voiceEnh : List ℝ → Except Unit (List ℝ)
  /-- `_save_audio` via pydub (lines 282-294); returns the saved buffer. -/
  save : List ℝ → Except Unit (List ℝ)

/-- `_spectral_subtraction` (lines 218-245): internal catch-all returns the
input buffer unchanged on any failure. -/
def spectral_subtraction (O : Oracles) (a : List ℝ) : List ℝ :=
  match O.stftSub a with
  | Except.ok b => b
  | Except.error _ => a

/-- `_enhance_voice_frequencies` (lines 247-280): internal catch-all returns
the input buffer unchanged on any failure. -/
def enhance_voice_frequencies (O : Oracles) (a : List ℝ) : List ℝ :=
  match O.voiceEnh a with
  | Except.ok b => b
  | Except.error _ => a

/-- `_light_enhancement` (lines 79-90). -/
def light_enhancement (O : Oracles) (a : List ℝ) : Except Unit (List ℝ) := do
  let a1 := normalize_audio a (-23)
  let a2 ← O.nrReduce 0.8 a1
  O.highPass 80 a2

/-- `_medium_enhancement` (lines 92-112). -/
def medium_enhancement (O : Oracles) (a : List ℝ) : Except Unit (List ℝ) := do
  let a1 := normalize_audio a (-23)
  let a2 := remove_silence O.vad a1 16000 false
  let a3 ← O.nrReduce 0.9 a2
  let a4 ← O.bandPass 80 7000 a3
  let a5 := compress_dynamic_range a4 3 (-20)
  pure (normalize_audio a5 (-23))

/-- `_aggressive_enhancement` (lines 114-140). -/
def aggressive_enhancement (O : Oracles) (a : List ℝ) : Except Unit (List ℝ) := do
  let a1 := normalize_audio a (-23)
  let a2 := remove_silence O.vad a1 16000 true
  let a3 ← O.nrReduce 0.95 a2
  let a4 := spectral_subtraction O a3
  let a5 ← O.bandPass 100 6000 a4
  let a6 := enhance_voice_frequencies O a5
  let a7 := compress_dynamic_range a6 4 (-20)
  pure (normalize_audio a7 (-23))

/-- The `if/elif/else` dispatch on `enhancement_level` (lines 56-63);
any unrecognized level falls into the `else` branch, which runs the
medium chain. -/
def level_chain (O : Oracles) (level : String) (a : List ℝ) :
    Except Unit (List ℝ) :=
  if level = "light" then light_enhancement O a
  else if level = "medium" then medium_enhancement O a
  else if level = "aggressive" then aggressive_enhancement O a
  else medium_enhancement O a

/-- The body of `enhance_audio`'s try-block (lines 51-72): load, run the
selected chain, save. -/
def run_enhance (O : Oracles) (level : String) (input : List ℝ) :
    Except Unit (List ℝ) := do
  let a ← O.load input
  let e ← level_chain O level a
  O.save e

/-- `enhance_audio` (lines 37-77): the catch-all at lines 74-77 returns the
original input on any failure anywhere in the try-block. -/
def enhance_audio (O : Oracles) (input : List ℝ) (level : String) : List ℝ :=
  match run_enhance O level input with
  | Except.ok out => out
  | Except.error _ => input

/-- The metrics half of the result of `enhance_audio_for_transcription`:
quality metrics are computed exactly when the returned path differs from the
input path, i.e. exactly when the try-block succeeded (the output path always
carries the `enhanced_` prefix in a temp directory, so it never equals the
input path); otherwise the report is `{"enhancement": "skipped"}`. -/
inductive Metrics where
  | computed : Metrics
  | skipped : Metrics

/-- `enhance_audio_for_transcription` (lines 346-361). -/
def enhance_audio_for_transcription (O : Oracles) (input : List ℝ)
    (level : String) : List ℝ × Metrics :=
  match run_enhance O level input with
  | Except.ok out => (out, Metrics.computed)
  | Except.error _ => (input, Metrics.skipped)

/-! ### Concrete oracle bundles used to exercise the chains. -/

/-- Every external call succeeds and acts as the identity on the buffer. -/
def okO : Oracles :=
  { load := fun b => Except.ok b
    nrReduce := fun _ b => Except.ok b
    highPass := fun _ b => Except.ok b
    bandPass := fun _ _ b => Except.ok b
    vad := fun _ => Except.ok true
    stftSub := fun b => Except.ok b
    voiceEnh := fun b => Except.ok b
    save := fun b => Except.ok b }

/-- Load, noise reduction and save succeed, while the band-pass filter, the
spectral-subtraction body and the voice-enhancement body all raise. -/
def failO : Oracles :=
  { okO with
    bandPass := fun _ _ _ => Except.error ()
    stftSub := fun _ => Except.error ()
    voiceEnh := fun _ => Except.error () }

end

/-! ## Claim C4 -/

/-- C4: spectral subtraction never drives any magnitude bin of any frame
below 0.1 times its pre-subtraction magnitude, for every magnitude matrix,
every over-subtraction factor and every noise-frame count (out-of-range
indices read as 0 on both sides). -/
theorem C4_floor_invariant (mag : List (List ℝ)) (alpha : ℝ)
    (noise_frames i j : ℕ) :
    0.1 * ((mag.getD i []).getD j 0) ≤
      (((spectral_subtract_mag mag alpha noise_frames).getD i []).getD j 0) := by
  unfold spectral_subtract_mag
  simp only [List.getD_eq_getElem?_getD, List.getElem?_map]
  cases mag[i]? with
  | none => simp
  | some row =>
    simp only [Option.map_some', Option.getD_some]
    unfold subtract_row
    simp only [List.getElem?_map]
    cases row[j]? with
    | none => simp
    | some m =>
      simp only [Option.map_some', Option.getD_some]
      exact le_max_right _ _

/-! ## Voice-activity-gate lemmas -/

lemma full_frames_of_not (fl : ℕ) (l : List ℝ) (h : ¬(0 < fl ∧ fl ≤ l.length)) :
    full_frames fl l = [] := by
  rw [full_frames]
  simp [h]

lemma full_frames_cons (fl : ℕ) (l : List ℝ) (h : 0 < fl ∧ fl ≤ l.length) :
    full_frames fl l = l.take fl :: full_frames fl (l.drop fl) := by
  rw [full_frames]
  simp [h]

lemma full_frames_spec (fl : ℕ) :
    ∀ (n : ℕ) (l : List ℝ), l.length ≤ n →
      (full_frames fl l).length = l.length / fl ∧
        ∀ f ∈ full_frames fl l, f.length = fl := by
  intro n
  induction n with
  | zero =>
    intro l hl
    rw [full_frames_of_not fl l (by omega)]
    have hlen : l.length = 0 := by omega
    simp [hlen]
  | succ n ih =>
    intro l hl
    by_cases h : 0 < fl ∧ fl ≤ l.length
    · rw [full_frames_cons fl l h]
      have hdl : (l.drop fl).length ≤ n := by
        simp only [List.length_drop]
        omega
      obtain ⟨ih1, ih2⟩ := ih (l.drop fl) hdl
      constructor
      · simp only [List.length_cons, ih1, List.length_drop]
        rw [Nat.div_eq_sub_div h.1 h.2]
      · intro f hf
        rcases List.mem_cons.mp hf with rfl | hf'
        · simp only [List.length_take]
          omega
        · exact ih2 f hf'
    · rw [full_frames_of_not fl l h]
      refine ⟨?_, by simp⟩
      rcases Nat.eq_zero_or_pos fl with rfl | hfl
      · simp
      · have hlt : l.length < fl := by omega
        simp [Nat.div_eq_of_lt hlt]

lemma full_frames_length (fl : ℕ) (l : List ℝ) :
    (full_frames fl l).length = l.length / fl :=
  (full_frames_spec fl l.length l le_rfl).1

lemma full_frames_mem_length (fl : ℕ) (l : List ℝ) :
    ∀ f ∈ full_frames fl l, f.length = fl :=
  (full_frames_spec fl l.length l le_rfl).2

lemma flatten_length_uniform (fl : ℕ) (L : List (List ℝ))
    (h : ∀ f ∈ L, f.length = fl) : L.flatten.length = fl * L.length := by
  induction L with
  | nil => simp
  | cons f rest ih =>
    simp only [List.flatten_cons, List.length_append, List.length_cons]
    rw [h f (List.mem_cons_self f rest),
      ih (fun g hg => h g (List.mem_cons_of_mem _ hg))]
    ring

/-- With `aggressive = False` the retention test is always true
(`is_speech or not aggressive`), so every full frame is kept. -/
lemma voiced_frames_false (vad : List ℝ → Except Unit Bool) (fl : ℕ)
    (audio : List ℝ) :
    voiced_frames vad false fl audio = full_frames fl audio := by
  unfold voiced_frames
  apply List.filter_eq_self.mpr
  intro f _
  unfold keepFrame
  cases vad f <;> simp

lemma remove_silence_eq (vad : List ℝ → Except Unit Bool) (audio : List ℝ)
    (sr : ℕ) (aggressive : Bool) :
    remove_silence vad audio sr aggressive =
      if (voiced_frames vad aggressive (sr * 30 / 1000) audio).isEmpty then audio
      else (voiced_frames vad aggressive (sr * 30 / 1000) audio).flatten := rfl

lemma voiced_frames_length_480 (vad : List ℝ → Except Unit Bool)
    (aggressive : Bool) (audio : List ℝ) :
    ∀ f ∈ voiced_frames vad aggressive 480 audio, f.length = 480 :=
  fun f hf => full_frames_mem_length 480 audio f (List.mem_of_mem_filter hf)

/-! ## Claim C10 -/

/-- C10: for every detector behavior, both aggressive flags and every input,
the gate's output length is either exactly the input length or a positive
multiple of the 480-sample frame length. -/
theorem C10_gate_length_invariant (vad : List ℝ → Except Unit Bool)
    (aggressive : Bool) (audio : List ℝ) :
    (remove_silence vad audio 16000 aggressive).length = audio.length ∨
      ∃ k, 0 < k ∧
        (remove_silence vad audio 16000 aggressive).length = 480 * k := by
  rw [remove_silence_eq, show (16000 * 30 / 1000 : ℕ) = 480 from rfl]
  by_cases he : (voiced_frames vad aggressive 480 audio).isEmpty
  · rw [if_pos he]
    exact Or.inl rfl
  · rw [if_neg he]
    refine Or.inr ⟨(voiced_frames vad aggressive 480 audio).length, ?_, ?_⟩
    · have hne : voiced_frames vad aggressive 480 audio ≠ [] := by
        simpa [List.isEmpty_iff] using he
      exact List.length_pos.mpr hne
    · exact flatten_length_uniform 480 _ (voiced_frames_length_480 vad aggressive audio)

/-! ## Claim C6 -/

/-- C6 counterexample: on a 482-sample buffer (not a multiple of the
480-sample frame), the gate with `aggressive = False` drops the 2-sample
tail, so the output length differs from the input length — refuting
"returns a buffer of identical length to the input" as universally stated. -/
theorem C6_cex :
    (remove_silence (fun _ => Except.ok false) (List.replicate 482 (0 : ℝ))
        16000 false).length ≠ (List.replicate 482 (0 : ℝ)).length := by
  rw [remove_silence_eq, show (16000 * 30 / 1000 : ℕ) = 480 from rfl,
    voiced_frames_false]
  have h1 : (full_frames 480 (List.replicate 482 (0 : ℝ))).length = 1 := by
    rw [full_frames_length, List.length_replicate]
  have hne : ¬(full_frames 480 (List.replicate 482 (0 : ℝ))).isEmpty := by
    rw [List.isEmpty_iff]
    intro hnil
    rw [hnil] at h1
    simp at h1
  rw [if_neg hne,
    flatten_length_uniform 480 _ (full_frames_mem_length 480 _), h1,
    List.length_replicate]
  norm_num

/-- C6 amended: with `aggressive = False` the gate keeps every full
480-sample frame; when the input holds at least one full frame the output is
the concatenation of all full frames, of length `480 * (n / 480)` (the
partial tail is dropped, so the length is identical to the input's only when
480 divides it); a shorter input is returned unchanged. -/
theorem C6_gate_nonaggressive (vad : List ℝ → Except Unit Bool)
    (audio : List ℝ) :
    remove_silence vad audio 16000 false =
      (if audio.length < 480 then audio else (full_frames 480 audio).flatten) ∧
    (remove_silence vad audio 16000 false).length =
      (if audio.length < 480 then audio.length
       else 480 * (audio.length / 480)) := by
  rw [remove_silence_eq, show (16000 * 30 / 1000 : ℕ) = 480 from rfl,
    voiced_frames_false]
  by_cases hlt : audio.length < 480
  · have hnil : full_frames 480 audio = [] :=
      full_frames_of_not 480 audio (by omega)
    rw [hnil]
    simp [hlt]
  · have hne : full_frames 480 audio ≠ [] := by
      intro hnil
      have := full_frames_length 480 audio
      rw [hnil] at this
      simp only [List.length_nil] at this
      have h1 : 1 ≤ audio.length / 480 :=
        (Nat.one_le_div_iff (by norm_num)).mpr (by omega)
      omega
    have hemp : ¬(full_frames 480 audio).isEmpty := by
      simpa [List.isEmpty_iff] using hne
    rw [if_neg hemp, if_neg hlt, if_neg hlt]
    exact ⟨rfl, by
      rw [flatten_length_uniform 480 _ (full_frames_mem_length 480 _),
        full_frames_length]⟩

/-! ## Claim C8 -/

/-- C8 counterexample: on the empty buffer the gate returns the empty
buffer, refuting "the voice-activity gate never returns an empty buffer"
as universally stated. -/
theorem C8_cex :
    remove_silence (fun _ => Except.ok true) ([] : List ℝ) 16000 true = [] := by
  rw [remove_silence_eq]
  have hnil : full_frames (16000 * 30 / 1000) ([] : List ℝ) = [] :=
    full_frames_of_not _ _ (by simp)
  simp [voiced_frames, hnil]

/-- C8 amended: the gate's output is the concatenation of the retained
frames when any frame is retained, and the original buffer unchanged when no
frame is retained; hence for every NONEMPTY input (and both aggressive
flags, and every detector behavior) the output is nonempty. -/
theorem C8_gate_output_nonempty (vad : List ℝ → Except Unit Bool)
    (aggressive : Bool) (audio : List ℝ) :
    (voiced_frames vad aggressive 480 audio = [] →
      remove_silence vad audio 16000 aggressive = audio) ∧
    (voiced_frames vad aggressive 480 audio ≠ [] →
      remove_silence vad audio 16000 aggressive =
        (voiced_frames vad aggressive 480 audio).flatten) ∧
    (audio ≠ [] → remove_silence vad audio 16000 aggressive ≠ []) := by
  rw [remove_silence_eq, show (16000 * 30 / 1000 : ℕ) = 480 from rfl]
  refine ⟨fun h => ?_, fun h => ?_, fun h => ?_⟩
  · rw [if_pos (by simp [h])]
  · rw [if_neg (by simpa [List.isEmpty_iff] using h)]
  · by_cases hk : voiced_frames vad aggressive 480 audio = []
    · rw [if_pos (by simp [hk])]
      exact h
    · rw [if_neg (by simpa [List.isEmpty_iff] using hk)]
      intro hflat
      have hlen := flatten_length_uniform 480 _
        (voiced_frames_length_480 vad aggressive audio)
      rw [hflat] at hlen
      simp only [List.length_nil] at hlen
      have := List.length_pos.mpr hk
      omega

/-- C8 witness: a concrete nonempty one-sample buffer (shorter than one
frame, so no frame is retained) comes back nonempty. -/
theorem C8_witness :
    remove_silence (fun _ => Except.ok true) [(0 : ℝ)] 16000 true ≠ [] :=
  (C8_gate_output_nonempty (fun _ => Except.ok true) true [(0 : ℝ)]).2.2
    (by simp)

/-! ## Claim C2 -/

/-- C2: the top-level enhance operation is total — for every oracle
behavior, level and input it either succeeds (returning the enhanced buffer
with computed metrics) or, on any failure anywhere in the try-block, returns
the original untouched input, with the metrics report marked skipped. -/
theorem C2_enhance_total (O : Oracles) (level : String) (input : List ℝ) :
    (∃ out, run_enhance O level input = Except.ok out ∧
        enhance_audio O input level = out ∧
        enhance_audio_for_transcription O input level = (out, Metrics.computed)) ∨
    (run_enhance O level input = Except.error () ∧
        enhance_audio O input level = input ∧
        enhance_audio_for_transcription O input level = (input, Metrics.skipped)) := by
  cases h : run_enhance O level input with
  | ok out =>
    exact Or.inl ⟨out, rfl, by simp [enhance_audio, h],
      by simp [enhance_audio_for_transcription, h]⟩
  | error e =>
    exact Or.inr ⟨rfl, by simp [enhance_audio, h],
      by simp [enhance_audio_for_transcription, h]⟩

/-! ## Claim C9 -/

/-- C9: any enhancement-level string other than "light", "medium",
"aggressive" falls through the `if/elif` chain into the `else` branch and
runs the medium enhancement chain. -/
theorem C9_unknown_level_defaults_medium (O : Oracles) (level : String)
    (a input : List ℝ) (h1 : level ≠ "light") (h2 : level ≠ "medium")
    (h3 : level ≠ "aggressive") :
    level_chain O level a = medium_enhancement O a ∧
      run_enhance O level input = run_enhance O "medium" input := by
  have hlc : ∀ b, level_chain O level b = medium_enhancement O b := by
    intro b
    unfold level_chain
    rw [if_neg h1, if_neg h2, if_neg h3]
  have hmed : ∀ b, level_chain O "medium" b = medium_enhancement O b := by
    intro b
    unfold level_chain
    rw [if_neg (by decide), if_pos rfl]
  refine ⟨hlc a, ?_⟩
  unfold run_enhance
  simp only [hlc, hmed]

/-- C9 witness: the concrete unrecognized level "none" runs the medium
chain under the all-succeeding oracles. -/
theorem C9_witness : level_chain okO "none" [] = medium_enhancement okO [] :=
  (C9_unknown_level_defaults_medium okO "none" [] [] (by decide) (by decide)
    (by decide)).1

/-! ## Claim C1 -/

/-- C1 counterexample: with load and noise-reduction succeeding but the
band-pass filter raising, the medium chain evaluates to an error — the
remaining stages (compression, final normalization) never run — and the
top level falls back to the original input with skipped metrics.  This
refutes "if any individual stage raises, only that stage is skipped and the
remaining stages still run; no single stage's failure aborts the whole
chain": there is no per-stage handler in the orchestrator, so the band-pass
failure aborts the whole chain. -/
theorem C1_cex :
    medium_enhancement failO [(1 : ℝ) / 2] = Except.error () ∧
      enhance_audio_for_transcription failO [(1 : ℝ) / 2] "medium" =
        ([(1 : ℝ) / 2], Metrics.skipped) :=
  ⟨rfl, rfl⟩

/-- C1 amended: only the silence-removal, spectral-subtraction and
voice-enhancement stages catch their own failures (passing their input
buffer through unchanged); a failure in a stage without an internal handler
— here the band-pass filter, after a successful noise reduction — aborts
the whole medium chain, and the top-level handler then returns the original
input with skipped metrics. -/
theorem C1_per_stage_policy (O : Oracles) (input a b x : List ℝ) :
    (O.stftSub x = Except.error () → spectral_subtraction O x = x) ∧
    (O.voiceEnh x = Except.error () → enhance_voice_frequencies O x = x) ∧
    (O.load input = Except.ok a →
      O.nrReduce 0.9 (remove_silence O.vad (normalize_audio a (-23)) 16000 false) =
        Except.ok b →
      O.bandPass 80 7000 b = Except.error () →
      medium_enhancement O a = Except.error () ∧
        enhance_audio_for_transcription O input "medium" =
          (input, Metrics.skipped)) := by
  refine ⟨fun h => ?_, fun h => ?_, fun h1 h2 h3 => ?_⟩
  · unfold spectral_subtraction
    rw [h]
  · unfold enhance_voice_frequencies
    rw [h]
  · have hmed : medium_enhancement O a = Except.error () := by
      unfold medium_enhancement
      simp only [bind, Except.bind, h2, h3]
    refine ⟨hmed, ?_⟩
    have hrun : run_enhance O "medium" input = Except.error () := by
      unfold run_enhance
      simp only [bind, Except.bind, h1]
      have hlc : level_chain O "medium" a = medium_enhancement O a := by
        unfold level_chain
        rw [if_neg (by decide), if_pos rfl]
      rw [hlc, hmed]
    unfold enhance_audio_for_transcription
    rw [hrun]

/-- C1 witness: under the concrete oracle bundle `failO`, the
spectral-subtraction stage swallows its own failure, while the band-pass
failure makes the top level return the original input with skipped
metrics. -/
theorem C1_witness :
    spectral_subtraction failO [(0 : ℝ)] = [(0 : ℝ)] ∧
      enhance_audio_for_transcription failO [(1 : ℝ) / 2] "medium" =
        ([(1 : ℝ) / 2], Metrics.skipped) := by
  have H := C1_per_stage_policy failO [(1 : ℝ) / 2] [(1 : ℝ) / 2]
    (remove_silence failO.vad (normalize_audio [(1 : ℝ) / 2] (-23)) 16000 false)
    [(0 : ℝ)]
  exact ⟨H.1 rfl, (H.2.2 rfl rfl rfl).2⟩

/-! ## Normalizer lemmas -/

lemma sum_sq_nonneg (a : List ℝ) : 0 ≤ (a.map (fun x => x ^ 2)).sum := by
  apply List.sum_nonneg
  intro x hx
  obtain ⟨y, _, rfl⟩ := List.mem_map.mp hx
  exact sq_nonneg y

lemma rms_map_mul (a : List ℝ) (c : ℝ) :
    rms (a.map (fun x => x * c)) = |c| * rms a := by
  unfold rms
  rw [List.map_map, List.length_map]
  have hcomp : ((fun x => x ^ 2) ∘ fun x => x * c) = fun x => x ^ 2 * c ^ 2 := by
    funext x
    simp [mul_pow]
  rw [hcomp, List.sum_map_mul_right]
  have hdiv : (a.map (fun x => x ^ 2)).sum * c ^ 2 / a.length =
      (a.map (fun x => x ^ 2)).sum / a.length * c ^ 2 := by
    ring
  rw [hdiv, Real.sqrt_mul (div_nonneg (sum_sq_nonneg a) (Nat.cast_nonneg _)),
    Real.sqrt_sq_eq_abs, mul_comm]

lemma target_rms_pos (t : ℝ) : 0 < target_rms t :=
  Real.rpow_pos_of_pos (by norm_num) _

lemma foldr_max_map_mul (l : List ℝ) (k : ℝ) (hk : 0 ≤ k) :
    (l.map (fun x => x * k)).foldr max 0 = k * l.foldr max 0 := by
  induction l with
  | nil => simp
  | cons x xs ih =>
    simp only [List.map_cons, List.foldr_cons, ih]
    rw [mul_max_of_nonneg _ _ hk, mul_comm k x]

lemma peakAbs_map_mul (a : List ℝ) (c : ℝ) :
    peakAbs (a.map (fun x => x * c)) = |c| * peakAbs a := by
  unfold peakAbs
  rw [List.map_map]
  have hcomp : ((fun x => |x|) ∘ fun x => x * c)
      = ((fun x => x * |c|) ∘ fun x => |x|) := by
    funext x
    simp [abs_mul]
  rw [hcomp, ← List.map_map, foldr_max_map_mul _ _ (abs_nonneg c)]

lemma rms_eq_zero_all_zero (a : List ℝ) (h : rms a = 0) : ∀ x ∈ a, x = 0 := by
  intro x hx
  unfold rms at h
  have hS : 0 ≤ (a.map (fun y => y ^ 2)).sum := sum_sq_nonneg a
  have hlen : (0 : ℝ) < (a.length : ℝ) := by
    exact_mod_cast List.length_pos.mpr (List.ne_nil_of_mem hx)
  have hle : (a.map (fun y => y ^ 2)).sum / (a.length : ℝ) ≤ 0 :=
    Real.sqrt_eq_zero'.mp h
  have hsum : (a.map (fun y => y ^ 2)).sum ≤ 0 := by
    by_contra hpos
    push_neg at hpos
    have : 0 < (a.map (fun y => y ^ 2)).sum / (a.length : ℝ) :=
      div_pos hpos hlen
    linarith
  have hsum0 : (a.map (fun y => y ^ 2)).sum = 0 := le_antisymm hsum hS
  have hx2 : x ^ 2 ≤ 0 := by
    have hmem : x ^ 2 ∈ a.map (fun y => y ^ 2) :=
      List.mem_map_of_mem _ hx
    have hone := List.single_le_sum
      (fun y hy => by
        obtain ⟨z, _, rfl⟩ := List.mem_map.mp hy
        exact sq_nonneg z) _ hmem
    rw [hsum0] at hone
    exact hone
  exact sq_eq_zero_iff.mp (le_antisymm hx2 (sq_nonneg x))

lemma peakAbs_of_all_zero (a : List ℝ) (h : ∀ x ∈ a, x = 0) : peakAbs a = 0 := by
  unfold peakAbs
  induction a with
  | nil => simp
  | cons x xs ih =>
    simp only [List.map_cons, List.foldr_cons]
    rw [h x (List.mem_cons_self x xs),
      ih (fun y hy => h y (List.mem_cons_of_mem _ hy))]
    simp

/-- The clipping guard alone bounds the peak by 0.95: either it fires and
rescales the peak to exactly 0.95, or the peak was already at most 0.95. -/
lemma peakAbs_clipGuard (y : List ℝ) : peakAbs (clipGuard y) ≤ 0.95 := by
  unfold clipGuard
  by_cases h : (0.95 : ℝ) < peakAbs y
  · rw [if_pos h, peakAbs_map_mul]
    have hp : (0 : ℝ) < peakAbs y := lt_trans (by norm_num) h
    rw [abs_of_pos (div_pos (by norm_num) hp),
      div_mul_cancel₀ _ (ne_of_gt hp)]
  · rw [if_neg h]
    exact le_of_not_lt h

lemma length_clipGuard (y : List ℝ) : (clipGuard y).length = y.length := by
  unfold clipGuard
  split <;> simp

lemma length_rmsScale (a : List ℝ) (t : ℝ) :
    (rmsScale a t).length = a.length := by
  unfold rmsScale
  split <;> simp

/-! ## Claim C3 -/

/-- C3 counterexample: on the empty buffer `_normalize_audio` does not
return the buffer unchanged — its RMS scaling branch is skipped, and then
`np.max` of the zero-size array raises, so the function errors instead of
returning a same-length buffer.  This refutes the claim's unrestricted
"a buffer with RMS == 0 is returned unchanged; the output always has the
same length as the input". -/
theorem C3_cex : normalize_audio_checked [] (-23) = Except.error () := by
  have hrms : rms ([] : List ℝ) = 0 := by
    unfold rms
    simp
  have h0 : rmsScale [] (-23) = [] := by
    unfold rmsScale
    rw [if_neg (by rw [hrms]; exact lt_irrefl 0)]
  simp only [normalize_audio_checked, h0, np_max_abs, if_pos rfl]
  rfl

/-- C3 amended: for every NONEMPTY buffer `_normalize_audio` returns
normally (the checked run agrees with the pure value); with positive RMS
the scaling step brings the RMS to exactly `10^(-23/20)` and the subsequent
clip guard keeps the output peak at or below 0.95; a nonempty buffer of
zero RMS is returned unchanged; and the output has the input's length.
The empty buffer is the sole exception: there the function raises
(`C3_cex`), the error being caught by the enclosing top-level handler. -/
theorem C3_normalize (a : List ℝ) (hne : a ≠ []) :
    normalize_audio_checked a (-23) = Except.ok (normalize_audio a (-23)) ∧
    (0 < rms a → rms (rmsScale a (-23)) = target_rms (-23) ∧
        peakAbs (normalize_audio a (-23)) ≤ 0.95) ∧
    (rms a = 0 → normalize_audio a (-23) = a) ∧
    (normalize_audio a (-23)).length = a.length := by
  refine ⟨?_, fun h => ⟨?_, peakAbs_clipGuard _⟩, fun h => ?_, ?_⟩
  · have hyne : rmsScale a (-23) ≠ [] := by
      intro h0
      apply hne
      have hl := length_rmsScale a (-23)
      rw [h0] at hl
      exact List.length_eq_zero.mp hl.symm
    simp only [normalize_audio_checked, np_max_abs, if_neg hyne]
    rfl
  · unfold rmsScale
    rw [if_pos h, rms_map_mul,
      abs_of_pos (div_pos (target_rms_pos _) h),
      div_mul_cancel₀ _ (ne_of_gt h)]
  · unfold normalize_audio rmsScale
    rw [if_neg (by rw [h]; exact lt_irrefl 0)]
    unfold clipGuard
    rw [peakAbs_of_all_zero a (rms_eq_zero_all_zero a h), if_neg (by norm_num)]
  · unfold normalize_audio
    rw [length_clipGuard, length_rmsScale]

/-- C3 witness: the one-sample buffer `[1]` is nonempty with RMS 1 > 0; the
checked run returns normally and the scaling step hits the target RMS. -/
theorem C3_witness :
    normalize_audio_checked [(1 : ℝ)] (-23) =
        Except.ok (normalize_audio [(1 : ℝ)] (-23)) ∧
      0 < rms [(1 : ℝ)] ∧
      rms (rmsScale [(1 : ℝ)] (-23)) = target_rms (-23) := by
  have h : 0 < rms [(1 : ℝ)] := by
    unfold rms
    norm_num
  have H := C3_normalize [(1 : ℝ)] (by simp)
  exact ⟨H.1, h, (H.2.1 h).1⟩

/-! ## Claim C7 -/

/-- C7: `estimate_snr` is clamped into [0, 60]; it returns exactly 60 when
the noise power (variance of the quietest 25% of samples by absolute value)
is zero; and when the noise power is positive it is the clamp of
`10·log10(signal_power/noise_power)`. -/
theorem C7_estimate_snr (a : List ℝ) :
    (0 ≤ estimate_snr a ∧ estimate_snr a ≤ 60) ∧
    (noise_power a = 0 → estimate_snr a = 60) ∧
    (0 < noise_power a →
      estimate_snr a =
        max 0 (min 60 (10 * Real.logb 10 (signal_power a / noise_power a)))) := by
  simp only [estimate_snr]
  refine ⟨⟨le_max_left _ _, max_le (by norm_num) (min_le_left _ _)⟩,
    fun h => ?_, fun h => ?_⟩
  · rw [if_neg (by rw [h]; exact lt_irrefl 0)]
    norm_num
  · rw [if_pos h]

/-- C7 witness: the all-zero four-sample buffer has zero noise power and
SNR exactly 60. -/
theorem C7_witness :
    noise_power [(0 : ℝ), 0, 0, 0] = 0 ∧
      estimate_snr [(0 : ℝ), 0, 0, 0] = 60 := by
  have h : noise_power [(0 : ℝ), 0, 0, 0] = 0 := by
    unfold noise_power noise_samples sortedAbs variance listMean
    norm_num [List.insertionSort, List.orderedInsert]
  exact ⟨h, (C7_estimate_snr [(0 : ℝ), 0, 0, 0]).2.1 h⟩

/-! ## DynamicRangeCompressor lemmas -/

lemma eps10_pos : (0 : ℝ) < eps10 := by
  unfold eps10
  norm_num

lemma abs_add_eps_pos (x : ℝ) : 0 < |x| + eps10 :=
  add_pos_of_nonneg_of_pos (abs_nonneg x) eps10_pos

/-- The sample 1/100 sits near −40 dB, well below the −20 dB threshold. -/
lemma audio_db_hundredth_le : audio_db ((1 : ℝ) / 100) ≤ -20 := by
  unfold audio_db
  have hv : |(1 : ℝ) / 100| + eps10 ≤ (10 : ℝ) ^ (-1 : ℝ) := by
    rw [Real.rpow_neg_one]
    unfold eps10
    rw [abs_of_pos (by norm_num)]
    norm_num
  have hlb : Real.logb 10 (|(1 : ℝ) / 100| + eps10) ≤ -1 :=
    (Real.logb_le_iff_le_rpow (by norm_num) (abs_add_eps_pos _)).mpr hv
  linarith

/-- The same sample sits far above an artificially low −300 dB threshold. -/
lemma audio_db_hundredth_gt : (-300 : ℝ) < audio_db ((1 : ℝ) / 100) := by
  unfold audio_db
  have hv : (10 : ℝ) ^ (-15 : ℝ) < |(1 : ℝ) / 100| + eps10 := by
    rw [show ((-15 : ℝ)) = ((-15 : ℤ) : ℝ) by norm_num, Real.rpow_intCast]
    unfold eps10
    rw [abs_of_pos (by norm_num)]
    norm_num
  have hlb : (-15 : ℝ) < Real.logb 10 (|(1 : ℝ) / 100| + eps10) :=
    (Real.lt_logb_iff_rpow_lt (by norm_num) (abs_add_eps_pos _)).mpr hv
  linarith

/-- Below (or at) threshold the compressor maps a sample to
`sign(x)·(|x| + 1e-10)`: the dB value is left unchanged, but the linear
round-trip re-adds the 1e-10 epsilon used to avoid `log(0)`. -/
lemma compressSample_below (ratio threshold x : ℝ)
    (h : audio_db x ≤ threshold) :
    compressSample ratio threshold x = Real.sign x * (|x| + eps10) := by
  unfold compressSample compressed_db
  rw [if_neg (not_lt.mpr h)]
  unfold audio_db
  rw [show 20 * Real.logb 10 (|x| + eps10) / 20
      = Real.logb 10 (|x| + eps10) by ring]
  rw [Real.rpow_logb (by norm_num) (by norm_num) (abs_add_eps_pos x)]

/-! ## Claim C5 -/

/-- C5 counterexample: the sample 1/100 has dB value below the −20 dB
threshold, yet the compressor does NOT leave it unchanged — the dB
round-trip returns `1/100 + 1e-10`.  This refutes "leaves samples whose dB
value is at or below threshold_db unchanged" read in the sample domain. -/
theorem C5_cex : compressSample 3 (-20) ((1 : ℝ) / 100) ≠ (1 : ℝ) / 100 := by
  rw [compressSample_below 3 (-20) _ audio_db_hundredth_le,
    Real.sign_of_pos (by norm_num)]
  unfold eps10
  rw [abs_of_pos (by norm_num)]
  norm_num

/-- C5 amended: a sample at or below the threshold maps to
`sign(x)·(|x| + 1e-10)` — unchanged except for the 1e-10 epsilon added
during dB conversion (its dB value is unchanged) — and a sample above the
threshold has its dB excess over the threshold divided by `ratio` before
the conversion back to linear magnitude with the original sign. -/
theorem C5_compress_amended (ratio threshold x : ℝ) :
    (audio_db x ≤ threshold →
      compressSample ratio threshold x = Real.sign x * (|x| + eps10)) ∧
    (threshold < audio_db x →
      compressSample ratio threshold x =
        Real.sign x *
          (10 : ℝ) ^ ((threshold + (audio_db x - threshold) / ratio) / 20)) := by
  refine ⟨compressSample_below ratio threshold x, fun h => ?_⟩
  unfold compressSample compressed_db
  rw [if_pos h]

/-- C5 witness: both branches of the amended statement at the concrete
sample 1/100 (below a −20 dB threshold; above a −300 dB threshold). -/
theorem C5_witness :
    compressSample 3 (-20) ((1 : ℝ) / 100) =
      Real.sign ((1 : ℝ) / 100) * (|(1 : ℝ) / 100| + eps10) ∧
    compressSample 3 (-300) ((1 : ℝ) / 100) =
      Real.sign ((1 : ℝ) / 100) *
        (10 : ℝ) ^ (((-300) + (audio_db ((1 : ℝ) / 100) - (-300)) / 3) / 20) :=
  ⟨(C5_compress_amended 3 (-20) ((1 : ℝ) / 100)).1 audio_db_hundredth_le,
   (C5_compress_amended 3 (-300) ((1 : ℝ) / 100)).2 audio_db_hundredth_gt⟩

end AudioEnhancer
